import Mathlib

/-!
Verification of the MIPLearn tutorial notebooks (unit-commitment example).

The material defines, in Python/Pyomo (`getting-started-pyomo.ipynb`) and in
Julia/JuMP (the second notebook), a data record `UnitCommitmentData`, a model
builder `build_uc_model` producing a mixed-integer program, a random instance
generator `random_uc_data`, and configurations of the MIPLearn library's
`H5FieldsExtractor` and `MemorizingPrimalComponent`.

Embedding conventions: real-valued data (`float` / `Float64`) is modelled by
`ℚ`; fallible list indexing is modelled by `Option`; random draws from
continuous uniform distributions are modelled by an abstract stream of unit
draws in `[0, 1]`, a `uniform(loc, scale)` sample being `loc + scale * u`.
-/

/-- Decision variables of the unit-commitment model: `x[i]` (generator on/off)
and `y[i]` (power produced), as declared in `build_uc_model`. -/
inductive UCVar where
  | x (i : ℕ)
  | y (i : ℕ)
deriving DecidableEq

/-- Variable domains used by the tutorials: `pe.Binary` and
`pe.NonNegativeReals` in Pyomo; `Bin` and a `>= 0` lower bound in JuMP. -/
inductive VarDom where
  | Binary
  | NonNegativeReals
deriving DecidableEq

/-- An affine expression: a list of `(coefficient, variable)` terms plus a
constant. -/
structure AffExpr where
  terms : List (ℚ × UCVar)
  const : ℚ
deriving DecidableEq

/-- Comparison operator of a linear constraint. -/
inductive Cmp where
  | le
  | ge
  | eq
deriving DecidableEq

/-- A linear constraint `lhs ⋈ rhs`. -/
structure Constr where
  lhs : AffExpr
  cmp : Cmp
  rhs : AffExpr
deriving DecidableEq

/-- Objective sense.  Pyomo objectives default to minimization; the JuMP
tutorial states `Min` explicitly. -/
inductive ObjSense where
  | minimize
deriving DecidableEq

/-- The optimization model built by `build_uc_model`: the variable
declarations, the objective with its sense, the two indexed constraint
families `eq_max_power` and `eq_min_power`, and the single demand equality. -/
structure UCModel where
  vars : List (UCVar × VarDom)
  sense : ObjSense
  obj : AffExpr
  eq_max_power : List Constr
  eq_min_power : List Constr
  eq_demand : Constr
deriving DecidableEq

/-- `PyomoModel(model, "gurobi_persistent")`: the thin wrapper returned by the
Pyomo `build_uc_model`. -/
structure PyomoModel where
  inner : UCModel
  solver_name : String
deriving DecidableEq

/-- `JumpModel(model)`: the thin wrapper returned by the JuMP
`build_uc_model`. -/
structure JumpModel where
  inner : UCModel
deriving DecidableEq

/-- `UnitCommitmentData`: the record holding one demand scalar and the four
per-generator lists, identical in the Pyomo and JuMP notebooks. -/
structure UnitCommitmentData where
  demand : ℚ
  pmin : List ℚ
  pmax : List ℚ
  cfix : List ℚ
  cvar : List ℚ
deriving DecidableEq

/-- Sequence a fallible function over a list; used to model loops whose body
performs fallible list indexing. -/
def optMap (f : α → Option β) : List α → Option (List β)
  | [] => some []
  | a :: l => do
    let b ← f a
    let bs ← optMap f l
    pure (b :: bs)

/-- The Pyomo `build_uc_model` on an in-memory record: `n = len(data.pmin)`;
binary `x[i]` and nonnegative `y[i]` for `i in range(n)`; objective
`sum(cfix[i]*x[i] + cvar[i]*y[i])`; a loop adding `y[i] <= pmax[i]*x[i]` to
`eq_max_power` and `y[i] >= pmin[i]*x[i]` to `eq_min_power`; the demand
equality `sum(y[i]) == demand`; wrapped as
`PyomoModel(model, "gurobi_persistent")`.  List accesses `data.cfix[i]`,
`data.cvar[i]`, `data.pmax[i]`, `data.pmin[i]` are fallible. -/
def build_uc_model_data (data : UnitCommitmentData) : Option PyomoModel := do
  let n := data.pmin.length
  let xv := (List.range n).map fun i => (UCVar.x i, VarDom.Binary)
  let yv := (List.range n).map fun i => (UCVar.y i, VarDom.NonNegativeReals)
  let objTerms ← optMap (fun i => do
    let cf ← data.cfix[i]?
    let cv ← data.cvar[i]?
    pure [(cf, UCVar.x i), (cv, UCVar.y i)]) (List.range n)
  let powerPairs ← optMap (fun i => do
    let pM ← data.pmax[i]?
    let pm ← data.pmin[i]?
    pure ((⟨⟨[((1 : ℚ), UCVar.y i)], 0⟩, Cmp.le, ⟨[(pM, UCVar.x i)], 0⟩⟩ : Constr),
          (⟨⟨[((1 : ℚ), UCVar.y i)], 0⟩, Cmp.ge, ⟨[(pm, UCVar.x i)], 0⟩⟩ : Constr))) (List.range n)
  pure { inner := { vars := xv ++ yv
                    sense := ObjSense.minimize
                    obj := ⟨objTerms.flatten, 0⟩
                    eq_max_power := powerPairs.map Prod.fst
                    eq_min_power := powerPairs.map Prod.snd
                    eq_demand := ⟨⟨(List.range n).map fun i => ((1 : ℚ), UCVar.y i), 0⟩,
                                  Cmp.eq, ⟨[], data.demand⟩⟩ }
         solver_name := "gurobi_persistent" }

/-- An abstract file store mapping paths to problem-data records.  Modelled
from the spec: the on-disk pickle/gzip problem-data files are external to the
material, so the file system is abstracted as an association list. -/
abbrev FS := List (String × UnitCommitmentData)

/-- Modelled from the spec: `miplearn.io.read_pkl_gz` (external library)
reads back the serialized problem-data record stored at a path. -/
def read_pkl_gz (path : String) (fs : FS) : Option UnitCommitmentData :=
  fs.lookup path

/-- Modelled from the spec: `miplearn.io.write_pkl_gz` (external library)
writes each record of the list to a compressed pickle file under the given
directory and returns the list of file paths. -/
def write_pkl_gz (ds : List UnitCommitmentData) (dirname : String) (fs : FS) :
    List String × FS :=
  let paths := (List.range ds.length).map fun i =>
    dirname ++ "/" ++ toString i ++ ".pkl.gz"
  (paths, paths.zip ds ++ fs)

/-- The argument of `build_uc_model`: `Union[str, UnitCommitmentData]`. -/
inductive UCInput where
  | path (s : String)
  | data (d : UnitCommitmentData)

/-- `build_uc_model`: on a path it first reads the record from the store
(`data = read_pkl_gz(data)`), then proceeds as on an in-memory record. -/
def build_uc_model (input : UCInput) (fs : FS) : Option PyomoModel :=
  match input with
  | .path s => (read_pkl_gz s fs).bind build_uc_model_data
  | .data d => build_uc_model_data d

/-- The Julia/JuMP `build_uc_model` on an in-memory record, with Julia's
1-based index set `G = 1:length(data.pmin)` translated to 0-based indices:
binary `x[g]` and `y[g] >= 0`; objective
`Min sum(cfix[g]*x[g] + cvar[g]*y[g])`; constraint families
`eq_max_power[g]: y[g] <= pmax[g]*x[g]` and
`eq_min_power[g]: y[g] >= pmin[g]*x[g]`; `eq_demand: sum(y[g]) == demand`;
wrapped as `JumpModel(model)`. -/
def build_uc_model_jump (data : UnitCommitmentData) : Option JumpModel := do
  let n := data.pmin.length
  let xv := (List.range n).map fun g => (UCVar.x g, VarDom.Binary)
  let yv := (List.range n).map fun g => (UCVar.y g, VarDom.NonNegativeReals)
  let objTerms ← optMap (fun g => do
    let cf ← data.cfix[g]?
    let cv ← data.cvar[g]?
    pure [(cf, UCVar.x g), (cv, UCVar.y g)]) (List.range n)
  let eqMax ← optMap (fun g => do
    let p ← data.pmax[g]?
    pure (⟨⟨[((1 : ℚ), UCVar.y g)], 0⟩, Cmp.le, ⟨[(p, UCVar.x g)], 0⟩⟩ : Constr)) (List.range n)
  let eqMin ← optMap (fun g => do
    let p ← data.pmin[g]?
    pure (⟨⟨[((1 : ℚ), UCVar.y g)], 0⟩, Cmp.ge, ⟨[(p, UCVar.x g)], 0⟩⟩ : Constr)) (List.range n)
  pure { inner := { vars := xv ++ yv
                    sense := ObjSense.minimize
                    obj := ⟨objTerms.flatten, 0⟩
                    eq_max_power := eqMax
                    eq_min_power := eqMin
                    eq_demand := ⟨⟨(List.range n).map fun g => ((1 : ℚ), UCVar.y g), 0⟩,
                                  Cmp.eq, ⟨[], data.demand⟩⟩ } }

/-- Closed form of the model both builders construct from a record whose
auxiliary lists are long enough; list entries are read via `getD`. -/
def ucModelOf (data : UnitCommitmentData) : UCModel :=
  let n := data.pmin.length
  { vars := ((List.range n).map fun i => (UCVar.x i, VarDom.Binary)) ++
      ((List.range n).map fun i => (UCVar.y i, VarDom.NonNegativeReals))
    sense := ObjSense.minimize
    obj := ⟨((List.range n).map fun i =>
      [(data.cfix.getD i 0, UCVar.x i), (data.cvar.getD i 0, UCVar.y i)]).flatten, 0⟩
    eq_max_power := (List.range n).map fun i =>
      ⟨⟨[((1 : ℚ), UCVar.y i)], 0⟩, Cmp.le, ⟨[(data.pmax.getD i 0, UCVar.x i)], 0⟩⟩
    eq_min_power := (List.range n).map fun i =>
      ⟨⟨[((1 : ℚ), UCVar.y i)], 0⟩, Cmp.ge, ⟨[(data.pmin.getD i 0, UCVar.x i)], 0⟩⟩
    eq_demand := ⟨⟨(List.range n).map fun i => ((1 : ℚ), UCVar.y i), 0⟩,
                  Cmp.eq, ⟨[], data.demand⟩⟩ }

theorem optMap_eq_some_map {α β : Type} {f : α → Option β} (g : α → β) :
    ∀ l : List α, (∀ a ∈ l, f a = some (g a)) → optMap f l = some (l.map g) := by
  intro l
  induction l with
  | nil => intro _; rfl
  | cons a t ih =>
    intro h
    have ha := h a (by simp)
    have ht := ih fun b hb => h b (by simp [hb])
    simp [optMap, ha, ht]

theorem getElem?_eq_some_getD {α : Type} {l : List α} {i : ℕ} (d : α)
    (h : i < l.length) : l[i]? = some (l.getD i d) := by
  rw [List.getElem?_eq_getElem h, List.getD_eq_getElem l d h]

theorem getD_map_range {α : Type} (f : ℕ → α) (d : α) {n i : ℕ} (h : i < n) :
    ((List.range n).map f).getD i d = f i := by
  have hlen : i < ((List.range n).map f).length := by simpa using h
  rw [List.getD_eq_getElem _ d hlen]
  simp

theorem sum_map_range (f : ℕ → ℚ) (n : ℕ) :
    ((List.range n).map f).sum = ∑ i ∈ Finset.range n, f i := by
  induction n with
  | zero => rfl
  | succ m ih =>
    rw [List.range_succ, Finset.sum_range_succ, List.map_append, List.sum_append, ih]
    simp

/-- Under the length hypotheses of the tutorial, the Pyomo builder succeeds
and returns exactly `ucModelOf data` wrapped with the solver name. -/
theorem build_uc_model_data_eq (data : UnitCommitmentData)
    (hmax : data.pmin.length ≤ data.pmax.length)
    (hfix : data.pmin.length ≤ data.cfix.length)
    (hvar : data.pmin.length ≤ data.cvar.length) :
    build_uc_model_data data = some ⟨ucModelOf data, "gurobi_persistent"⟩ := by
  have hobj := optMap_eq_some_map
    (f := fun i => do
      let cf ← data.cfix[i]?
      let cv ← data.cvar[i]?
      pure [(cf, UCVar.x i), (cv, UCVar.y i)])
    (fun i => [(data.cfix.getD i 0, UCVar.x i), (data.cvar.getD i 0, UCVar.y i)])
    (List.range data.pmin.length)
    (by
      intro i hi
      have hi' : i < data.pmin.length := List.mem_range.mp hi
      dsimp only
      rw [getElem?_eq_some_getD 0 (lt_of_lt_of_le hi' hfix),
          getElem?_eq_some_getD 0 (lt_of_lt_of_le hi' hvar)]
      rfl)
  have hpairs := optMap_eq_some_map
    (f := fun i => do
      let pM ← data.pmax[i]?
      let pm ← data.pmin[i]?
      pure ((⟨⟨[((1 : ℚ), UCVar.y i)], 0⟩, Cmp.le, ⟨[(pM, UCVar.x i)], 0⟩⟩ : Constr),
            (⟨⟨[((1 : ℚ), UCVar.y i)], 0⟩, Cmp.ge, ⟨[(pm, UCVar.x i)], 0⟩⟩ : Constr)))
    (fun i =>
      ((⟨⟨[((1 : ℚ), UCVar.y i)], 0⟩, Cmp.le, ⟨[(data.pmax.getD i 0, UCVar.x i)], 0⟩⟩ : Constr),
       (⟨⟨[((1 : ℚ), UCVar.y i)], 0⟩, Cmp.ge, ⟨[(data.pmin.getD i 0, UCVar.x i)], 0⟩⟩ : Constr)))
    (List.range data.pmin.length)
    (by
      intro i hi
      have hi' : i < data.pmin.length := List.mem_range.mp hi
      dsimp only
      rw [getElem?_eq_some_getD 0 (lt_of_lt_of_le hi' hmax), getElem?_eq_some_getD 0 hi']
      rfl)
  simp only [build_uc_model_data, hobj, hpairs, Option.bind_some]
  simp [ucModelOf, List.map_map, Function.comp]

/-- Under the length hypotheses, the JuMP builder succeeds and returns
exactly `ucModelOf data` in the `JumpModel` wrapper. -/
theorem build_uc_model_jump_eq (data : UnitCommitmentData)
    (hmax : data.pmin.length ≤ data.pmax.length)
    (hfix : data.pmin.length ≤ data.cfix.length)
    (hvar : data.pmin.length ≤ data.cvar.length) :
    build_uc_model_jump data = some ⟨ucModelOf data⟩ := by
  have hobj := optMap_eq_some_map
    (f := fun g => do
      let cf ← data.cfix[g]?
      let cv ← data.cvar[g]?
      pure [(cf, UCVar.x g), (cv, UCVar.y g)])
    (fun g => [(data.cfix.getD g 0, UCVar.x g), (data.cvar.getD g 0, UCVar.y g)])
    (List.range data.pmin.length)
    (by
      intro g hg
      have hg' : g < data.pmin.length := List.mem_range.mp hg
      dsimp only
      rw [getElem?_eq_some_getD 0 (lt_of_lt_of_le hg' hfix),
          getElem?_eq_some_getD 0 (lt_of_lt_of_le hg' hvar)]
      rfl)
  have hMax := optMap_eq_some_map
    (f := fun g => do
      let p ← data.pmax[g]?
      pure (⟨⟨[((1 : ℚ), UCVar.y g)], 0⟩, Cmp.le, ⟨[(p, UCVar.x g)], 0⟩⟩ : Constr))
    (fun g =>
      (⟨⟨[((1 : ℚ), UCVar.y g)], 0⟩, Cmp.le, ⟨[(data.pmax.getD g 0, UCVar.x g)], 0⟩⟩ : Constr))
    (List.range data.pmin.length)
    (by
      intro g hg
      have hg' : g < data.pmin.length := List.mem_range.mp hg
      dsimp only
      rw [getElem?_eq_some_getD 0 (lt_of_lt_of_le hg' hmax)]
      rfl)
  have hMin := optMap_eq_some_map
    (f := fun g => do
      let p ← data.pmin[g]?
      pure (⟨⟨[((1 : ℚ), UCVar.y g)], 0⟩, Cmp.ge, ⟨[(p, UCVar.x g)], 0⟩⟩ : Constr))
    (fun g =>
      (⟨⟨[((1 : ℚ), UCVar.y g)], 0⟩, Cmp.ge, ⟨[(data.pmin.getD g 0, UCVar.x g)], 0⟩⟩ : Constr))
    (List.range data.pmin.length)
    (by
      intro g hg
      have hg' : g < data.pmin.length := List.mem_range.mp hg
      dsimp only
      rw [getElem?_eq_some_getD 0 hg']
      rfl)
  simp only [build_uc_model_jump, hobj, hMax, hMin, Option.bind_some]
  simp [ucModelOf]

/-- Value of a list of linear terms under an assignment. -/
def termsVal (σ : UCVar → ℚ) (ts : List (ℚ × UCVar)) : ℚ :=
  (ts.map fun t => t.1 * σ t.2).sum

/-- Value of an affine expression under an assignment. -/
def AffExpr.val (σ : UCVar → ℚ) (e : AffExpr) : ℚ :=
  termsVal σ e.terms + e.const

/-- Whether an assignment satisfies a constraint. -/
def Constr.holds (σ : UCVar → ℚ) (c : Constr) : Prop :=
  match c.cmp with
  | Cmp.le => c.lhs.val σ ≤ c.rhs.val σ
  | Cmp.ge => c.rhs.val σ ≤ c.lhs.val σ
  | Cmp.eq => c.lhs.val σ = c.rhs.val σ

/-- Whether a value lies in a variable's domain. -/
def domOk : VarDom → ℚ → Prop
  | VarDom.Binary, v => v = 0 ∨ v = 1
  | VarDom.NonNegativeReals, v => 0 ≤ v

/-- An assignment is feasible for a model when every variable value lies in
its domain and every constraint of the model is satisfied. -/
def UCModel.FeasiblePoint (m : UCModel) (σ : UCVar → ℚ) : Prop :=
  (∀ p ∈ m.vars, domOk p.2 (σ p.1)) ∧
  (∀ c ∈ m.eq_max_power, c.holds σ) ∧
  (∀ c ∈ m.eq_min_power, c.holds σ) ∧
  m.eq_demand.holds σ

/-- A `uniform(loc, scale)` sample obtained from a unit draw `u`: the scipy
distribution `uniform(loc, scale)` is supported on `[loc, loc + scale]`. -/
def uniform_draw (loc scale u : ℚ) : ℚ := loc + scale * u

/-- The `pmin` array of `random_uc_data`: `uniform(loc=100_000, scale=400_000).rvs(n)`,
one unit draw per entry (stream positions `0..n-1`). -/
def uc_pmin (n : ℕ) (us : ℕ → ℚ) : List ℚ :=
  (List.range n).map fun i => uniform_draw 100000 400000 (us i)

/-- The `pmax` array of `random_uc_data`: `pmin * uniform(loc=2.0, scale=2.5).rvs(n)`
elementwise (stream positions `n..2n-1`). -/
def uc_pmax (n : ℕ) (us : ℕ → ℚ) : List ℚ :=
  (List.range n).map fun i => (uc_pmin n us).getD i 0 * uniform_draw 2 2.5 (us (n + i))

/-- The `cfix` array of `random_uc_data`: `pmin * uniform(loc=100, scale=25).rvs(n)`
elementwise (stream positions `2n..3n-1`). -/
def uc_cfix (n : ℕ) (us : ℕ → ℚ) : List ℚ :=
  (List.range n).map fun i => (uc_pmin n us).getD i 0 * uniform_draw 100 25 (us (2 * n + i))

/-- The `cvar` array of `random_uc_data`: `uniform(loc=1.25, scale=0.25).rvs(n)`
(stream positions `3n..4n-1`). -/
def uc_cvar (n : ℕ) (us : ℕ → ℚ) : List ℚ :=
  (List.range n).map fun i => uniform_draw 1.25 0.25 (us (3 * n + i))

/-- The Pyomo `random_uc_data`: the four per-generator arrays are drawn once;
each of the `samples` records shares them and only its demand is drawn anew,
as `pmax.sum() * uniform(loc=0.5, scale=0.25).rvs()` (stream position
`4n + j` for sample `j`).  `us` is the abstract stream of unit draws. -/
def random_uc_data (samples n : ℕ) (us : ℕ → ℚ) : List UnitCommitmentData :=
  (List.range samples).map fun j =>
    { demand := (uc_pmax n us).sum * uniform_draw 0.5 0.25 (us (4 * n + j))
      pmin := uc_pmin n us
      pmax := uc_pmax n us
      cfix := uc_cfix n us
      cvar := uc_cvar n us }

/-- C2: for every record in which `pmax`, `cfix` and `cvar` are each at least
as long as `pmin`, `build_uc_model` performs no out-of-bounds list access:
the (fallibly-indexing) builder succeeds.  The hypotheses permit the four
lists to have unequal lengths: no equal-length check exists in the builder,
and the witness below exercises it on a record with unequal lengths. -/
theorem uc_C2 (data : UnitCommitmentData)
    (hmax : data.pmin.length ≤ data.pmax.length)
    (hfix : data.pmin.length ≤ data.cfix.length)
    (hvar : data.pmin.length ≤ data.cvar.length) :
    (build_uc_model_data data).isSome := by
  rw [build_uc_model_data_eq data hmax hfix hvar]
  rfl

/-- Witness for C2, on a record whose four per-generator lists have pairwise
different lengths. -/
theorem uc_C2_witness :
    (build_uc_model_data ⟨100, [10], [50, 60], [700, 600, 500], [1.5, 2, 2.5, 3]⟩).isSome :=
  uc_C2 ⟨100, [10], [50, 60], [700, 600, 500], [1.5, 2, 2.5, 3]⟩
    (by decide) (by decide) (by decide)

/-- C3: writing a record with `write_pkl_gz` and calling `build_uc_model` on
the resulting file path yields the same model as calling `build_uc_model`
directly on the record. -/
theorem uc_C3 (d : UnitCommitmentData) (dirname : String) (fs : FS) :
    build_uc_model (UCInput.path ((write_pkl_gz [d] dirname fs).1.getD 0 ""))
        (write_pkl_gz [d] dirname fs).2 =
      build_uc_model (UCInput.data d) (write_pkl_gz [d] dirname fs).2 := by
  simp [build_uc_model, write_pkl_gz, read_pkl_gz, List.lookup]

/-- C8: a `UnitCommitmentData` record consists of exactly the five fields
`demand`, `pmin`, `pmax`, `cfix`, `cvar`, and these are the only problem data
the model builder reads: two records agreeing on all five fields produce the
same model. -/
theorem uc_C8 :
    (∀ r : UnitCommitmentData, r = ⟨r.demand, r.pmin, r.pmax, r.cfix, r.cvar⟩) ∧
    (∀ r₁ r₂ : UnitCommitmentData, r₁.demand = r₂.demand → r₁.pmin = r₂.pmin →
      r₁.pmax = r₂.pmax → r₁.cfix = r₂.cfix → r₁.cvar = r₂.cvar →
      build_uc_model_data r₁ = build_uc_model_data r₂) := by
  constructor
  · intro r; cases r; rfl
  · intro r₁ r₂ h₁ h₂ h₃ h₄ h₅
    cases r₁; cases r₂
    simp_all

/-- Witness for C8: the second conjunct applied to two record expressions
agreeing on all five fields. -/
theorem uc_C8_witness :
    build_uc_model_data ⟨100, [10, 20, 30], [50, 60, 70], [700, 600, 500], [1.5, 2, 2.5]⟩ =
      build_uc_model_data
        ⟨100, [10, 20, 30], [50, 60, 70], [700, 600, 500],
          (⟨100, [10, 20, 30], [50, 60, 70], [700, 600, 500], [1.5, 2, 2.5]⟩ :
            UnitCommitmentData).cvar⟩ :=
  uc_C8.2 _ _ rfl rfl rfl rfl rfl

instance : Inhabited Constr := ⟨⟨⟨[], 0⟩, Cmp.eq, ⟨[], 0⟩⟩⟩

/-- The three-generator instance solved in both tutorials. -/
def tutorialData : UnitCommitmentData :=
  ⟨100, [10, 20, 30], [50, 60, 70], [700, 600, 500], [1.5, 2, 2.5]⟩

/-- C4: on every record with equal-length per-generator lists, the Pyomo and
the JuMP `build_uc_model` construct the same model (variables, domains,
objective and constraints), differing only in the returned wrapper
(`PyomoModel` versus `JumpModel`). -/
theorem uc_C4 (data : UnitCommitmentData) (n : ℕ)
    (h1 : data.pmin.length = n) (h2 : data.pmax.length = n)
    (h3 : data.cfix.length = n) (h4 : data.cvar.length = n) :
    (build_uc_model_data data).map PyomoModel.inner =
      (build_uc_model_jump data).map JumpModel.inner := by
  rw [build_uc_model_data_eq data (by omega) (by omega) (by omega),
      build_uc_model_jump_eq data (by omega) (by omega) (by omega)]
  rfl

/-- Witness for C4, on the three-generator tutorial instance. -/
theorem uc_C4_witness :
    tutorialData.pmin.length = 3 ∧
      (build_uc_model_data tutorialData).map PyomoModel.inner =
        (build_uc_model_jump tutorialData).map JumpModel.inner :=
  ⟨rfl, uc_C4 tutorialData 3 rfl rfl rfl rfl⟩

/-- C1: on every record whose four per-generator lists all have length `n`,
`build_uc_model` returns a model with exactly the `n` binary variables
`x[0..n-1]`, the `n` nonnegative continuous variables `y[0..n-1]`, the
minimized objective `∑ i, cfix[i]*x[i] + cvar[i]*y[i]`, `n` constraints
`y[i] ≤ pmax[i]*x[i]`, `n` constraints `y[i] ≥ pmin[i]*x[i]`, and one
equality `∑ i, y[i] = demand`, for `2n + 1` constraints in total. -/
theorem uc_C1 (data : UnitCommitmentData) (n : ℕ)
    (h1 : data.pmin.length = n) (h2 : data.pmax.length = n)
    (h3 : data.cfix.length = n) (h4 : data.cvar.length = n) :
    ∃ M : PyomoModel, build_uc_model_data data = some M ∧
      (M.inner.vars.filter fun p => decide (p.2 = VarDom.Binary)).map Prod.fst =
        (List.range n).map UCVar.x ∧
      (M.inner.vars.filter fun p => decide (p.2 = VarDom.NonNegativeReals)).map Prod.fst =
        (List.range n).map UCVar.y ∧
      M.inner.sense = ObjSense.minimize ∧
      (∀ σ : UCVar → ℚ, M.inner.obj.val σ =
        ∑ i ∈ Finset.range n,
          (data.cfix.getD i 0 * σ (UCVar.x i) + data.cvar.getD i 0 * σ (UCVar.y i))) ∧
      M.inner.eq_max_power.length = n ∧
      (∀ i, i < n → ∀ σ : UCVar → ℚ,
        ((M.inner.eq_max_power.getD i default).holds σ ↔
          σ (UCVar.y i) ≤ data.pmax.getD i 0 * σ (UCVar.x i))) ∧
      M.inner.eq_min_power.length = n ∧
      (∀ i, i < n → ∀ σ : UCVar → ℚ,
        ((M.inner.eq_min_power.getD i default).holds σ ↔
          data.pmin.getD i 0 * σ (UCVar.x i) ≤ σ (UCVar.y i))) ∧
      (∀ σ : UCVar → ℚ,
        (M.inner.eq_demand.holds σ ↔
          (∑ i ∈ Finset.range n, σ (UCVar.y i)) = data.demand)) ∧
      M.inner.eq_max_power.length + M.inner.eq_min_power.length + 1 = 2 * n + 1 := by
  subst h1
  refine ⟨⟨ucModelOf data, "gurobi_persistent"⟩,
    build_uc_model_data_eq data h2.ge h3.ge h4.ge, ?_, ?_, rfl, ?_, ?_, ?_, ?_, ?_, ?_, ?_⟩
  · simp [ucModelOf, List.filter_append, List.filter_map, Function.comp_def, List.map_map]
  · simp [ucModelOf, List.filter_append, List.filter_map, Function.comp_def, List.map_map]
  · intro σ
    simp only [ucModelOf, AffExpr.val, termsVal]
    rw [List.map_flatten, List.sum_flatten, List.map_map, List.map_map]
    rw [sum_map_range]
    rw [add_zero]
    apply Finset.sum_congr rfl
    intro i _
    simp [Function.comp]
  · simp [ucModelOf]
  · intro i hi σ
    simp only [ucModelOf]
    rw [getD_map_range _ _ hi]
    simp [Constr.holds, AffExpr.val, termsVal]
  · simp [ucModelOf]
  · intro i hi σ
    simp only [ucModelOf]
    rw [getD_map_range _ _ hi]
    simp [Constr.holds, AffExpr.val, termsVal]
  · intro σ
    simp only [ucModelOf]
    simp only [Constr.holds, AffExpr.val, termsVal, List.map_map]
    rw [← sum_map_range (fun i => σ (UCVar.y i))]
    simp [Function.comp_def]
  · simp [ucModelOf]
    omega

/-- Witness for C1, on the three-generator tutorial instance. -/
theorem uc_C1_witness :
    tutorialData.pmin.length = 3 ∧ tutorialData.pmax.length = 3 ∧
      tutorialData.cfix.length = 3 ∧ tutorialData.cvar.length = 3 ∧
      (∃ M : PyomoModel, build_uc_model_data tutorialData = some M ∧
        (M.inner.vars.filter fun p => decide (p.2 = VarDom.Binary)).map Prod.fst =
          (List.range 3).map UCVar.x ∧
        (M.inner.vars.filter fun p => decide (p.2 = VarDom.NonNegativeReals)).map Prod.fst =
          (List.range 3).map UCVar.y ∧
        M.inner.sense = ObjSense.minimize ∧
        (∀ σ : UCVar → ℚ, M.inner.obj.val σ =
          ∑ i ∈ Finset.range 3,
            (tutorialData.cfix.getD i 0 * σ (UCVar.x i) +
              tutorialData.cvar.getD i 0 * σ (UCVar.y i))) ∧
        M.inner.eq_max_power.length = 3 ∧
        (∀ i, i < 3 → ∀ σ : UCVar → ℚ,
          ((M.inner.eq_max_power.getD i default).holds σ ↔
            σ (UCVar.y i) ≤ tutorialData.pmax.getD i 0 * σ (UCVar.x i))) ∧
        M.inner.eq_min_power.length = 3 ∧
        (∀ i, i < 3 → ∀ σ : UCVar → ℚ,
          ((M.inner.eq_min_power.getD i default).holds σ ↔
            tutorialData.pmin.getD i 0 * σ (UCVar.x i) ≤ σ (UCVar.y i))) ∧
        (∀ σ : UCVar → ℚ,
          (M.inner.eq_demand.holds σ ↔
            (∑ i ∈ Finset.range 3, σ (UCVar.y i)) = tutorialData.demand)) ∧
        M.inner.eq_max_power.length + M.inner.eq_min_power.length + 1 = 2 * 3 + 1) :=
  ⟨rfl, rfl, rfl, rfl, uc_C1 tutorialData 3 rfl rfl rfl rfl⟩

/-- `KNeighborsClassifier(n_neighbors=...)`: the scikit-learn classifier is
external; the tutorials only fix its configuration. -/
structure KNeighborsClassifier where
  n_neighbors : ℕ
deriving DecidableEq

/-- `H5FieldsExtractor(instance_fields=..., var_fields=..., constr_fields=...)`:
the user-specified HDF5 field names; an omitted argument is `none`. -/
structure H5FieldsExtractor where
  instance_fields : Option (List String)
  var_fields : Option (List String)
  constr_fields : Option (List String)
deriving DecidableEq

/-- `MergeTopSolutions(k, thresholds)`: merges the optimal solutions of the
`k` nearest training instances into a partial solution. -/
structure MergeTopSolutions where
  k : ℕ
  thresholds : List ℚ
deriving DecidableEq

/-- The primal action used by both tutorials: `SetWarmStart()`, which supplies
the predicted partial solution to the solver as an initial candidate
solution. -/
inductive PrimalAction where
  | SetWarmStart
deriving DecidableEq

/-- `MemorizingPrimalComponent(clf=..., extractor=..., constructor=...,
action=...)`. -/
structure MemorizingPrimalComponent where
  clf : KNeighborsClassifier
  extractor : H5FieldsExtractor
  constructor : MergeTopSolutions
  action : PrimalAction
deriving DecidableEq

/-- The warm-start component `comp` built in the Pyomo tutorial. -/
def comp_pyomo : MemorizingPrimalComponent :=
  { clf := { n_neighbors := 25 }
    extractor := { instance_fields := some ["static_constr_rhs"]
                   var_fields := none
                   constr_fields := none }
    constructor := { k := 25, thresholds := [0.0, 1.0] }
    action := PrimalAction.SetWarmStart }

/-- The warm-start component `comp` built in the JuMP tutorial. -/
def comp_jump : MemorizingPrimalComponent :=
  { clf := { n_neighbors := 25 }
    extractor := { instance_fields := some ["static_constr_rhs"]
                   var_fields := none
                   constr_fields := none }
    constructor := { k := 25, thresholds := [0.0, 1.0] }
    action := PrimalAction.SetWarmStart }

/-- The `H5FieldsExtractor` `ext` of the feature-extractor notebook's
multiknapsack example. -/
def ext_knapsack : H5FieldsExtractor :=
  { instance_fields := some ["lp_obj_value", "static_var_obj_coeffs"]
    var_fields := some ["lp_obj_value", "static_var_obj_coeffs", "lp_var_values",
                        "lp_var_reduced_costs"]
    constr_fields := some ["static_constr_rhs", "lp_constr_dual_values", "lp_constr_slacks"] }

/-- C5: in both tutorials the warm-start component is a
`MemorizingPrimalComponent` with a 25-neighbor k-nearest-neighbors
classifier, an `H5FieldsExtractor` whose only instance field is
`static_constr_rhs` (and no variable or constraint fields), a
`MergeTopSolutions(25, [0.0, 1.0])` constructor, and a `SetWarmStart`
action. -/
theorem uc_C5 :
    comp_pyomo = comp_jump ∧
      comp_pyomo =
        { clf := { n_neighbors := 25 }
          extractor := { instance_fields := some ["static_constr_rhs"]
                         var_fields := none
                         constr_fields := none }
          constructor := { k := 25, thresholds := [0.0, 1.0] }
          action := PrimalAction.SetWarmStart } :=
  ⟨rfl, rfl⟩

/-- The seven HDF5 field names named by the material. -/
def sevenFields : List String :=
  ["lp_obj_value", "static_var_obj_coeffs", "lp_var_values", "lp_var_reduced_costs",
   "static_constr_rhs", "lp_constr_dual_values", "lp_constr_slacks"]

/-- The field of `sevenFields` holding one scalar per instance. -/
def scalarFields : List String := ["lp_obj_value"]

/-- The fields of `sevenFields` holding one value per decision variable. -/
def perVarFields : List String :=
  ["static_var_obj_coeffs", "lp_var_values", "lp_var_reduced_costs"]

/-- The fields of `sevenFields` holding one value per constraint. -/
def perConstrFields : List String :=
  ["static_constr_rhs", "lp_constr_dual_values", "lp_constr_slacks"]

/-- Modelled from the spec: an HDF5 training-data file with the named numeric
fields read by the tutorials' extractors (the HDF5 schema itself is external
to the material). -/
structure H5File where
  lp_obj_value : ℚ
  static_var_obj_coeffs : List ℚ
  lp_var_values : List ℚ
  lp_var_reduced_costs : List ℚ
  static_constr_rhs : List ℚ
  lp_constr_dual_values : List ℚ
  lp_constr_slacks : List ℚ
deriving DecidableEq

/-- Number of decision variables of the instance stored in an HDF5 file. -/
def nVars (h5 : H5File) : ℕ := h5.static_var_obj_coeffs.length

/-- Number of constraints of the instance stored in an HDF5 file. -/
def nConstrs (h5 : H5File) : ℕ := h5.static_constr_rhs.length

/-- Well-formedness of an HDF5 file: the per-variable fields all have length
`nVars` and the per-constraint fields all have length `nConstrs`. -/
def WfH5 (h5 : H5File) : Prop :=
  h5.lp_var_values.length = nVars h5 ∧ h5.lp_var_reduced_costs.length = nVars h5 ∧
  h5.lp_constr_dual_values.length = nConstrs h5 ∧ h5.lp_constr_slacks.length = nConstrs h5

/-- Modelled from the spec: the sequence of values an HDF5 field contributes
to the instance-feature vector (a scalar field contributes one entry, a
per-variable or per-constraint field all of its entries, matching the
`(11,) = 1 + 10` instance-feature shape printed in the material); an
unrecognized name fails. -/
def instance_field_values (h5 : H5File) : String → Option (List ℚ)
  | "lp_obj_value" => some [h5.lp_obj_value]
  | "static_var_obj_coeffs" => some h5.static_var_obj_coeffs
  | "lp_var_values" => some h5.lp_var_values
  | "lp_var_reduced_costs" => some h5.lp_var_reduced_costs
  | "static_constr_rhs" => some h5.static_constr_rhs
  | "lp_constr_dual_values" => some h5.lp_constr_dual_values
  | "lp_constr_slacks" => some h5.lp_constr_slacks
  | _ => none

/-- Modelled from the spec: `H5FieldsExtractor.get_instance_features`
concatenates the user-specified instance fields, in order, into one
feature vector. -/
def get_instance_features (h5 : H5File) : List String → Option (List ℚ)
  | [] => some []
  | f :: rest => do
    let v ← instance_field_values h5 f
    let vs ← get_instance_features h5 rest
    pure (v ++ vs)

/-- Modelled from the spec: the value an HDF5 field contributes to the
feature row of variable `i` (a scalar field is broadcast to every row,
matching the variable-feature matrix printed in the material). -/
def var_field_value (h5 : H5File) (f : String) (i : ℕ) : Option ℚ :=
  match f with
  | "lp_obj_value" => some h5.lp_obj_value
  | "static_var_obj_coeffs" => h5.static_var_obj_coeffs[i]?
  | "lp_var_values" => h5.lp_var_values[i]?
  | "lp_var_reduced_costs" => h5.lp_var_reduced_costs[i]?
  | _ => none

/-- Modelled from the spec: `H5FieldsExtractor.get_var_features` assembles
one row per decision variable, each row listing the user-specified fields in
order. -/
def get_var_features (h5 : H5File) (fields : List String) : Option (List (List ℚ)) :=
  optMap (fun i => optMap (fun f => var_field_value h5 f i) fields) (List.range (nVars h5))

/-- Modelled from the spec: the value an HDF5 field contributes to the
feature row of constraint `i`. -/
def constr_field_value (h5 : H5File) (f : String) (i : ℕ) : Option ℚ :=
  match f with
  | "lp_obj_value" => some h5.lp_obj_value
  | "static_constr_rhs" => h5.static_constr_rhs[i]?
  | "lp_constr_dual_values" => h5.lp_constr_dual_values[i]?
  | "lp_constr_slacks" => h5.lp_constr_slacks[i]?
  | _ => none

/-- Modelled from the spec: `H5FieldsExtractor.get_constr_features` assembles
one row per constraint, each row listing the user-specified fields in
order. -/
def get_constr_features (h5 : H5File) (fields : List String) : Option (List (List ℚ)) :=
  optMap (fun i => optMap (fun f => constr_field_value h5 f i) fields)
    (List.range (nConstrs h5))

/-- Modelled from the spec: concatenating per-instance feature vectors into a
training matrix requires all vectors to have the same length; otherwise the
external library fails. -/
def concat_rows (rows : List (List ℚ)) : Option (List (List ℚ)) :=
  match rows with
  | [] => some []
  | r :: rest => if rest.all fun s => s.length == r.length then some (r :: rest) else none

/-- Every HDF5 field name configured on the tutorials' `H5FieldsExtractor`s. -/
def tutorialFields : List String :=
  ext_knapsack.instance_fields.getD [] ++ ext_knapsack.var_fields.getD [] ++
    ext_knapsack.constr_fields.getD [] ++ comp_pyomo.extractor.instance_fields.getD [] ++
    comp_pyomo.extractor.var_fields.getD [] ++ comp_pyomo.extractor.constr_fields.getD [] ++
    comp_jump.extractor.instance_fields.getD [] ++ comp_jump.extractor.var_fields.getD [] ++
    comp_jump.extractor.constr_fields.getD []

theorem instance_field_values_isSome (h5 : H5File) {f : String} (hf : f ∈ sevenFields) :
    (instance_field_values h5 f).isSome := by
  fin_cases hf <;> rfl

theorem get_instance_features_eq (h5 : H5File) :
    ∀ fs : List String, (∀ f ∈ fs, f ∈ sevenFields) →
      get_instance_features h5 fs =
        some ((fs.map fun f => (instance_field_values h5 f).getD []).flatten) := by
  intro fs
  induction fs with
  | nil => intro _; rfl
  | cons f rest ih =>
    intro h
    have hf : f ∈ sevenFields := h f (by simp)
    obtain ⟨v, hv⟩ := Option.isSome_iff_exists.mp (instance_field_values_isSome h5 hf)
    rw [get_instance_features, hv, ih fun g hg => h g (by simp [hg])]
    simp [hv]

theorem option_eq_some_getD {α : Type} {o : Option α} (h : o.isSome) (d : α) :
    o = some (o.getD d) := by
  obtain ⟨v, hv⟩ := Option.isSome_iff_exists.mp h
  rw [hv]
  rfl

theorem getElem?_isSome_of_lt {α : Type} {l : List α} {i : ℕ} (h : i < l.length) :
    (l[i]?).isSome := by
  rw [List.getElem?_eq_getElem h]
  rfl

theorem var_field_value_isSome (h5 : H5File) (hw : WfH5 h5) {f : String}
    (hf : f ∈ scalarFields ∨ f ∈ perVarFields) {i : ℕ} (hi : i < nVars h5) :
    (var_field_value h5 f i).isSome := by
  obtain ⟨hv, hr, -, -⟩ := hw
  rcases hf with hf | hf
  · fin_cases hf; rfl
  · fin_cases hf
    · show (h5.static_var_obj_coeffs[i]?).isSome
      exact getElem?_isSome_of_lt hi
    · show (h5.lp_var_values[i]?).isSome
      exact getElem?_isSome_of_lt (lt_of_lt_of_eq hi hv.symm)
    · show (h5.lp_var_reduced_costs[i]?).isSome
      exact getElem?_isSome_of_lt (lt_of_lt_of_eq hi hr.symm)

theorem var_field_value_eq_some (h5 : H5File) (hw : WfH5 h5) {f : String}
    (hf : f ∈ scalarFields ∨ f ∈ perVarFields) {i : ℕ} (hi : i < nVars h5) :
    var_field_value h5 f i = some ((var_field_value h5 f i).getD 0) :=
  option_eq_some_getD (var_field_value_isSome h5 hw hf hi) 0

theorem get_var_features_eq (h5 : H5File) (fs : List String) (hw : WfH5 h5)
    (hall : ∀ f ∈ fs, f ∈ scalarFields ∨ f ∈ perVarFields) :
    get_var_features h5 fs =
      some ((List.range (nVars h5)).map fun i =>
        fs.map fun f => (var_field_value h5 f i).getD 0) := by
  rw [get_var_features]
  apply optMap_eq_some_map
  intro i hi
  have hi' : i < nVars h5 := List.mem_range.mp hi
  exact optMap_eq_some_map _ fs fun f hf =>
    var_field_value_eq_some h5 hw (hall f hf) hi'

theorem constr_field_value_isSome (h5 : H5File) (hw : WfH5 h5) {f : String}
    (hf : f ∈ scalarFields ∨ f ∈ perConstrFields) {i : ℕ} (hi : i < nConstrs h5) :
    (constr_field_value h5 f i).isSome := by
  obtain ⟨-, -, hd, hs⟩ := hw
  rcases hf with hf | hf
  · fin_cases hf; rfl
  · fin_cases hf
    · show (h5.static_constr_rhs[i]?).isSome
      exact getElem?_isSome_of_lt hi
    · show (h5.lp_constr_dual_values[i]?).isSome
      exact getElem?_isSome_of_lt (lt_of_lt_of_eq hi hd.symm)
    · show (h5.lp_constr_slacks[i]?).isSome
      exact getElem?_isSome_of_lt (lt_of_lt_of_eq hi hs.symm)

theorem constr_field_value_eq_some (h5 : H5File) (hw : WfH5 h5) {f : String}
    (hf : f ∈ scalarFields ∨ f ∈ perConstrFields) {i : ℕ} (hi : i < nConstrs h5) :
    constr_field_value h5 f i = some ((constr_field_value h5 f i).getD 0) :=
  option_eq_some_getD (constr_field_value_isSome h5 hw hf hi) 0

theorem get_constr_features_eq (h5 : H5File) (fs : List String) (hw : WfH5 h5)
    (hall : ∀ f ∈ fs, f ∈ scalarFields ∨ f ∈ perConstrFields) :
    get_constr_features h5 fs =
      some ((List.range (nConstrs h5)).map fun i =>
        fs.map fun f => (constr_field_value h5 f i).getD 0) := by
  rw [get_constr_features]
  apply optMap_eq_some_map
  intro i hi
  have hi' : i < nConstrs h5 := List.mem_range.mp hi
  exact optMap_eq_some_map _ fs fun f hf =>
    constr_field_value_eq_some h5 hw (hall f hf) hi'

theorem concat_rows_none {va vb : List ℚ} (h : va.length ≠ vb.length) :
    concat_rows [va, vb] = none := by
  have hb : (vb.length == va.length) = false := beq_eq_false_iff_ne.mpr (Ne.symm h)
  simp only [concat_rows, List.all_cons, List.all_nil, hb, Bool.false_and]
  rfl

theorem inst_features_length (h5 : H5File) (hw : WfH5 h5) :
    ∀ fs : List String, (∀ f ∈ fs, f ∈ scalarFields ∨ f ∈ perVarFields) →
      ((fs.map fun f => (instance_field_values h5 f).getD []).flatten).length =
        (fs.countP fun f => decide (f ∈ scalarFields)) +
          (fs.countP fun f => decide (f ∈ perVarFields)) * nVars h5 := by
  intro fs
  induction fs with
  | nil => intro _; simp
  | cons f rest ih =>
    intro h
    have hrest := ih fun g hg => h g (by simp [hg])
    rw [List.map_cons, List.flatten_cons, List.length_append, hrest,
        List.countP_cons, List.countP_cons]
    rcases h f (by simp) with hf | hf
    · fin_cases hf
      have h1 : instance_field_values h5 "lp_obj_value" = some [h5.lp_obj_value] := rfl
      have h2 : decide (("lp_obj_value" : String) ∈ scalarFields) = true := by decide
      have h3 : decide (("lp_obj_value" : String) ∈ perVarFields) = false := by decide
      rw [h1, h2, h3]
      simp
      ring
    · fin_cases hf
      · have h1 : instance_field_values h5 "static_var_obj_coeffs" =
            some h5.static_var_obj_coeffs := rfl
        have h2 : decide (("static_var_obj_coeffs" : String) ∈ scalarFields) = false := by decide
        have h3 : decide (("static_var_obj_coeffs" : String) ∈ perVarFields) = true := by decide
        rw [h1, h2, h3]
        simp [nVars]
        ring
      · have h1 : instance_field_values h5 "lp_var_values" = some h5.lp_var_values := rfl
        have h2 : decide (("lp_var_values" : String) ∈ scalarFields) = false := by decide
        have h3 : decide (("lp_var_values" : String) ∈ perVarFields) = true := by decide
        rw [h1, h2, h3]
        simp [hw.1]
        ring
      · have h1 : instance_field_values h5 "lp_var_reduced_costs" =
            some h5.lp_var_reduced_costs := rfl
        have h2 : decide (("lp_var_reduced_costs" : String) ∈ scalarFields) = false := by decide
        have h3 : decide (("lp_var_reduced_costs" : String) ∈ perVarFields) = true := by decide
        rw [h1, h2, h3]
        simp [hw.2.1]
        ring

/-- C6: if the instance fields contain one per-variable field (the others
being scalar), the instance-feature vector has length "number of scalar
fields + number of variables"; two well-formed HDF5 files with different
variable counts therefore give vectors of different lengths, and
concatenating them fails. -/
theorem uc_C6 (fs : List String) (h5a h5b : H5File)
    (hall : ∀ f ∈ fs, f ∈ scalarFields ∨ f ∈ perVarFields)
    (hone : (fs.countP fun f => decide (f ∈ perVarFields)) = 1)
    (hwa : WfH5 h5a) (hwb : WfH5 h5b) (hne : nVars h5a ≠ nVars h5b) :
    ∃ va vb, get_instance_features h5a fs = some va ∧
      get_instance_features h5b fs = some vb ∧
      va.length = (fs.countP fun f => decide (f ∈ scalarFields)) + nVars h5a ∧
      vb.length = (fs.countP fun f => decide (f ∈ scalarFields)) + nVars h5b ∧
      va.length ≠ vb.length ∧ concat_rows [va, vb] = none := by
  have hsub : ∀ f ∈ fs, f ∈ sevenFields := by
    intro f hf
    rcases hall f hf with h | h
    · fin_cases h
      decide
    · fin_cases h <;> decide
  have hA := inst_features_length h5a hwa fs hall
  have hB := inst_features_length h5b hwb fs hall
  have hlen : ((fs.map fun f => (instance_field_values h5a f).getD []).flatten).length ≠
      ((fs.map fun f => (instance_field_values h5b f).getD []).flatten).length := by
    rw [hA, hB, hone]
    omega
  refine ⟨_, _, get_instance_features_eq h5a fs hsub, get_instance_features_eq h5b fs hsub,
    ?_, ?_, hlen, ?_⟩
  · rw [hA, hone]
    ring
  · rw [hB, hone]
    ring
  · exact concat_rows_none hlen

/-- A well-formed one-variable HDF5 file used as a witness. -/
def h5a_witness : H5File := ⟨0, [1], [1], [1], [], [], []⟩

/-- A well-formed two-variable HDF5 file used as a witness. -/
def h5b_witness : H5File := ⟨0, [1, 2], [1, 2], [1, 2], [], [], []⟩

/-- Witness for C6, with instance fields `[lp_obj_value,
static_var_obj_coeffs]` on files with one and two variables. -/
theorem uc_C6_witness :
    ∃ va vb,
      get_instance_features h5a_witness ["lp_obj_value", "static_var_obj_coeffs"] = some va ∧
      get_instance_features h5b_witness ["lp_obj_value", "static_var_obj_coeffs"] = some vb ∧
      va.length = ((["lp_obj_value", "static_var_obj_coeffs"] : List String).countP
        fun f => decide (f ∈ scalarFields)) + nVars h5a_witness ∧
      vb.length = ((["lp_obj_value", "static_var_obj_coeffs"] : List String).countP
        fun f => decide (f ∈ scalarFields)) + nVars h5b_witness ∧
      va.length ≠ vb.length ∧ concat_rows [va, vb] = none :=
  uc_C6 ["lp_obj_value", "static_var_obj_coeffs"] h5a_witness h5b_witness
    (by decide) (by decide) ⟨rfl, rfl, rfl, rfl⟩ ⟨rfl, rfl, rfl, rfl⟩ (by decide)

/-- C7: every HDF5 field name configured on the tutorials' extractors is one
of the seven names of the spec, and `get_instance_features`,
`get_var_features` and `get_constr_features` assemble exactly the
user-specified fields, in the given order (a scalar field broadcasting to
every row of the variable/constraint matrices). -/
theorem uc_C7 :
    (∀ f ∈ tutorialFields, f ∈ sevenFields) ∧
    (∀ (h5 : H5File) (fs : List String), (∀ f ∈ fs, f ∈ sevenFields) →
      get_instance_features h5 fs =
        some ((fs.map fun f => (instance_field_values h5 f).getD []).flatten)) ∧
    (∀ (h5 : H5File) (fs : List String), WfH5 h5 →
      (∀ f ∈ fs, f ∈ scalarFields ∨ f ∈ perVarFields) →
      get_var_features h5 fs =
        some ((List.range (nVars h5)).map fun i =>
          fs.map fun f => (var_field_value h5 f i).getD 0)) ∧
    (∀ (h5 : H5File) (fs : List String), WfH5 h5 →
      (∀ f ∈ fs, f ∈ scalarFields ∨ f ∈ perConstrFields) →
      get_constr_features h5 fs =
        some ((List.range (nConstrs h5)).map fun i =>
          fs.map fun f => (constr_field_value h5 f i).getD 0)) :=
  ⟨by decide, get_instance_features_eq, get_var_features_eq, get_constr_features_eq⟩

/-- Witness for C7: the three extraction methods applied to a concrete file
with the field lists of the feature-extractor notebook. -/
theorem uc_C7_witness :
    get_instance_features h5a_witness ["lp_obj_value", "static_var_obj_coeffs"] =
      some (((["lp_obj_value", "static_var_obj_coeffs"] : List String).map
        fun f => (instance_field_values h5a_witness f).getD []).flatten) ∧
    get_var_features h5a_witness
        ["lp_obj_value", "static_var_obj_coeffs", "lp_var_values", "lp_var_reduced_costs"] =
      some ((List.range (nVars h5a_witness)).map fun i =>
        (["lp_obj_value", "static_var_obj_coeffs", "lp_var_values",
          "lp_var_reduced_costs"] : List String).map
          fun f => (var_field_value h5a_witness f i).getD 0) ∧
    get_constr_features h5a_witness
        ["static_constr_rhs", "lp_constr_dual_values", "lp_constr_slacks"] =
      some ((List.range (nConstrs h5a_witness)).map fun i =>
        (["static_constr_rhs", "lp_constr_dual_values", "lp_constr_slacks"] : List String).map
          fun f => (constr_field_value h5a_witness f i).getD 0) :=
  ⟨uc_C7.2.1 h5a_witness _ (by decide),
    uc_C7.2.2.1 h5a_witness _ ⟨rfl, rfl, rfl, rfl⟩ (by decide),
    uc_C7.2.2.2 h5a_witness _ ⟨rfl, rfl, rfl, rfl⟩ (by decide)⟩

theorem uc_pmin_length (n : ℕ) (us : ℕ → ℚ) : (uc_pmin n us).length = n := by
  simp [uc_pmin]

theorem uc_pmax_length (n : ℕ) (us : ℕ → ℚ) : (uc_pmax n us).length = n := by
  simp [uc_pmax]

theorem uc_cfix_length (n : ℕ) (us : ℕ → ℚ) : (uc_cfix n us).length = n := by
  simp [uc_cfix]

theorem uc_cvar_length (n : ℕ) (us : ℕ → ℚ) : (uc_cvar n us).length = n := by
  simp [uc_cvar]

theorem uc_pmin_getD {n i : ℕ} (us : ℕ → ℚ) (hi : i < n) :
    (uc_pmin n us).getD i 0 = uniform_draw 100000 400000 (us i) := by
  rw [uc_pmin]
  exact getD_map_range _ _ hi

theorem uc_pmax_getD {n i : ℕ} (us : ℕ → ℚ) (hi : i < n) :
    (uc_pmax n us).getD i 0 =
      (uc_pmin n us).getD i 0 * uniform_draw 2 2.5 (us (n + i)) := by
  rw [uc_pmax]
  exact getD_map_range _ _ hi

theorem uc_pmin_getD_lb {n i : ℕ} (us : ℕ → ℚ) (hus : ∀ k, 0 ≤ us k ∧ us k ≤ 1)
    (hi : i < n) : 100000 ≤ (uc_pmin n us).getD i 0 := by
  rw [uc_pmin_getD us hi]
  have h := (hus i).1
  simp only [uniform_draw]
  nlinarith

theorem uc_pmax_getD_ge {n i : ℕ} (us : ℕ → ℚ) (hus : ∀ k, 0 ≤ us k ∧ us k ≤ 1)
    (hi : i < n) : 2 * (uc_pmin n us).getD i 0 ≤ (uc_pmax n us).getD i 0 := by
  rw [uc_pmax_getD us hi]
  have h1 := uc_pmin_getD_lb us hus hi
  have h2 := (hus (n + i)).1
  simp only [uniform_draw]
  nlinarith [mul_nonneg (show (0 : ℚ) ≤ (uc_pmin n us).getD i 0 by linarith) h2]

theorem uc_pmin_sum (n : ℕ) (us : ℕ → ℚ) :
    (uc_pmin n us).sum = ∑ i ∈ Finset.range n, (uc_pmin n us).getD i 0 := by
  conv_lhs => rw [uc_pmin]
  rw [sum_map_range]
  exact Finset.sum_congr rfl fun i hi => (uc_pmin_getD us (Finset.mem_range.mp hi)).symm

theorem uc_pmax_sum (n : ℕ) (us : ℕ → ℚ) :
    (uc_pmax n us).sum = ∑ i ∈ Finset.range n, (uc_pmax n us).getD i 0 := by
  conv_lhs => rw [uc_pmax]
  rw [sum_map_range]
  refine Finset.sum_congr rfl fun i hi => ?_
  rw [uc_pmax_getD us (Finset.mem_range.mp hi)]

theorem uc_pmin_sum_lb (n : ℕ) (us : ℕ → ℚ) (hus : ∀ k, 0 ≤ us k ∧ us k ≤ 1) :
    (n : ℚ) * 100000 ≤ (uc_pmin n us).sum := by
  rw [uc_pmin_sum]
  calc (n : ℚ) * 100000 = ∑ _i ∈ Finset.range n, (100000 : ℚ) := by
        rw [Finset.sum_const, Finset.card_range]
        ring
    _ ≤ ∑ i ∈ Finset.range n, (uc_pmin n us).getD i 0 :=
        Finset.sum_le_sum fun i hi => uc_pmin_getD_lb us hus (Finset.mem_range.mp hi)

theorem uc_two_pmin_sum_le (n : ℕ) (us : ℕ → ℚ) (hus : ∀ k, 0 ≤ us k ∧ us k ≤ 1) :
    2 * (uc_pmin n us).sum ≤ (uc_pmax n us).sum := by
  rw [uc_pmin_sum, uc_pmax_sum, Finset.mul_sum]
  exact Finset.sum_le_sum fun i hi => uc_pmax_getD_ge us hus (Finset.mem_range.mp hi)

theorem uc_pmax_sum_nonneg (n : ℕ) (us : ℕ → ℚ) (hus : ∀ k, 0 ≤ us k ∧ us k ≤ 1) :
    0 ≤ (uc_pmax n us).sum := by
  have h1 := uc_two_pmin_sum_le n us hus
  have h2 := uc_pmin_sum_lb n us hus
  have h3 : (0 : ℚ) ≤ (n : ℚ) * 100000 := by positivity
  linarith

/-- C9: `random_uc_data` returns exactly `samples` records which all share
the same four per-generator arrays of length `n` (only the demand differs),
and every demand lies between `0.5` and `0.75` times the sum of `pmax`. -/
theorem uc_C9 (samples n : ℕ) (_hs : 1 ≤ samples) (_hn : 1 ≤ n) (us : ℕ → ℚ)
    (hus : ∀ k, 0 ≤ us k ∧ us k ≤ 1) :
    (random_uc_data samples n us).length = samples ∧
    (∀ r ∈ random_uc_data samples n us,
      r.pmin = uc_pmin n us ∧ r.pmax = uc_pmax n us ∧ r.cfix = uc_cfix n us ∧
        r.cvar = uc_cvar n us ∧ r.pmin.length = n ∧ r.pmax.length = n ∧
        r.cfix.length = n ∧ r.cvar.length = n) ∧
    (∀ r ∈ random_uc_data samples n us,
      0.5 * r.pmax.sum ≤ r.demand ∧ r.demand ≤ 0.75 * r.pmax.sum) := by
  refine ⟨by simp [random_uc_data], ?_, ?_⟩
  · intro r hr
    rw [random_uc_data] at hr
    obtain ⟨j, hj, rfl⟩ := List.mem_map.mp hr
    exact ⟨rfl, rfl, rfl, rfl, uc_pmin_length n us, uc_pmax_length n us,
      uc_cfix_length n us, uc_cvar_length n us⟩
  · intro r hr
    rw [random_uc_data] at hr
    obtain ⟨j, hj, rfl⟩ := List.mem_map.mp hr
    have hM0 := uc_pmax_sum_nonneg n us hus
    have hu := hus (4 * n + j)
    dsimp only
    constructor
    · simp only [uniform_draw]
      nlinarith [hu.1, hu.2]
    · simp only [uniform_draw]
      nlinarith [hu.1, hu.2]

/-- Witness for C9: one sample, one generator, the all-zero draw stream. -/
theorem uc_C9_witness :
    (random_uc_data 1 1 fun _ => (0 : ℚ)).length = 1 ∧
    (∀ r ∈ random_uc_data 1 1 fun _ => (0 : ℚ),
      r.pmin = uc_pmin 1 (fun _ => (0 : ℚ)) ∧ r.pmax = uc_pmax 1 (fun _ => (0 : ℚ)) ∧
        r.cfix = uc_cfix 1 (fun _ => (0 : ℚ)) ∧ r.cvar = uc_cvar 1 (fun _ => (0 : ℚ)) ∧
        r.pmin.length = 1 ∧ r.pmax.length = 1 ∧ r.cfix.length = 1 ∧ r.cvar.length = 1) ∧
    (∀ r ∈ random_uc_data 1 1 fun _ => (0 : ℚ),
      0.5 * r.pmax.sum ≤ r.demand ∧ r.demand ≤ 0.75 * r.pmax.sum) :=
  uc_C9 1 1 (le_refl 1) (le_refl 1) (fun _ => (0 : ℚ))
    (fun _ => ⟨le_refl 0, by norm_num⟩)

/-- The feasible assignment used for C10: every generator online (`x i = 1`)
and `y i` interpolating between `pmin i` and `pmax i` with parameter `t`. -/
def uc_feasible_point (n : ℕ) (us : ℕ → ℚ) (t : ℚ) : UCVar → ℚ
  | UCVar.x _ => 1
  | UCVar.y i =>
      (uc_pmin n us).getD i 0 + t * ((uc_pmax n us).getD i 0 - (uc_pmin n us).getD i 0)

/-- C10: every record produced by `random_uc_data` yields a feasible model:
`pmax[i] ≥ 2*pmin[i]` componentwise, `∑pmin ≤ ½∑pmax ≤ demand ≤ ∑pmax`, and
the builder succeeds on the record with a model admitting a feasible point
that sets every `x[i] = 1`. -/
theorem uc_C10 (samples n : ℕ) (us : ℕ → ℚ) (hus : ∀ k, 0 ≤ us k ∧ us k ≤ 1) :
    ∀ r ∈ random_uc_data samples n us,
      (∀ i, i < r.pmin.length → 2 * r.pmin.getD i 0 ≤ r.pmax.getD i 0) ∧
      r.pmin.sum ≤ 0.5 * r.pmax.sum ∧ 0.5 * r.pmax.sum ≤ r.demand ∧
      r.demand ≤ r.pmax.sum ∧
      ∃ M : PyomoModel, build_uc_model_data r = some M ∧
        ∃ σ : UCVar → ℚ, (∀ i, σ (UCVar.x i) = 1) ∧ M.inner.FeasiblePoint σ := by
  intro r hr
  rw [random_uc_data] at hr
  obtain ⟨j, hj, rfl⟩ := List.mem_map.mp hr
  dsimp only
  have hM0 := uc_pmax_sum_nonneg n us hus
  have h2P := uc_two_pmin_sum_le n us hus
  have hPlb := uc_pmin_sum_lb n us hus
  have hu := hus (4 * n + j)
  set d : ℚ := (uc_pmax n us).sum * uniform_draw 0.5 0.25 (us (4 * n + j)) with hd
  have hd1 : 0.5 * (uc_pmax n us).sum ≤ d := by
    rw [hd]
    simp only [uniform_draw]
    nlinarith [hu.1, hu.2]
  have hd2 : d ≤ (uc_pmax n us).sum := by
    rw [hd]
    simp only [uniform_draw]
    nlinarith [hu.1, hu.2]
  refine ⟨?_, by linarith, hd1, hd2, ?_⟩
  · intro i hi
    exact uc_pmax_getD_ge us hus (by rwa [uc_pmin_length] at hi)
  refine ⟨⟨ucModelOf ⟨d, uc_pmin n us, uc_pmax n us, uc_cfix n us, uc_cvar n us⟩,
      "gurobi_persistent"⟩,
    build_uc_model_data_eq _ (by simp [uc_pmin_length, uc_pmax_length])
      (by simp [uc_pmin_length, uc_cfix_length]) (by simp [uc_pmin_length, uc_cvar_length]),
    ?_⟩
  rcases Nat.eq_zero_or_pos n with hn0 | hn1
  · subst hn0
    have hd0 : d = 0 := by
      rw [hd]
      simp [uc_pmax]
    refine ⟨uc_feasible_point 0 us 0, fun i => rfl, ?_, ?_, ?_, ?_⟩
    · intro p hp
      simp [ucModelOf, uc_pmin] at hp
    · intro c hc
      simp [ucModelOf, uc_pmin] at hc
    · intro c hc
      simp [ucModelOf, uc_pmin] at hc
    · simp [ucModelOf, uc_pmin, Constr.holds, AffExpr.val, termsVal, hd0]
  · have hn' : (1 : ℚ) ≤ (n : ℚ) := by exact_mod_cast hn1
    have hD : 0 < (uc_pmax n us).sum - (uc_pmin n us).sum := by nlinarith
    set t : ℚ := (d - (uc_pmin n us).sum) /
      ((uc_pmax n us).sum - (uc_pmin n us).sum) with ht
    have ht0 : 0 ≤ t := by
      rw [ht]
      apply div_nonneg _ (le_of_lt hD)
      linarith
    have ht1 : t ≤ 1 := by
      rw [ht, div_le_one hD]
      linarith
    have hq : ∀ i, i < n → 100000 ≤ (uc_pmin n us).getD i 0 :=
      fun i hi => uc_pmin_getD_lb us hus hi
    have hqM : ∀ i, i < n → 2 * (uc_pmin n us).getD i 0 ≤ (uc_pmax n us).getD i 0 :=
      fun i hi => uc_pmax_getD_ge us hus hi
    refine ⟨uc_feasible_point n us t, fun i => rfl, ?_, ?_, ?_, ?_⟩
    · intro p hp
      simp only [ucModelOf, uc_pmin_length] at hp
      rcases List.mem_append.mp hp with h | h
      · obtain ⟨i, hi, rfl⟩ := List.mem_map.mp h
        exact Or.inr rfl
      · obtain ⟨i, hi, rfl⟩ := List.mem_map.mp h
        have hi' : i < n := List.mem_range.mp hi
        show (0 : ℚ) ≤ uc_feasible_point n us t (UCVar.y i)
        have h1 := hq i hi'
        have h2 := hqM i hi'
        simp only [uc_feasible_point]
        nlinarith [mul_nonneg ht0 (show (0 : ℚ) ≤
          (uc_pmax n us).getD i 0 - (uc_pmin n us).getD i 0 by linarith)]
    · intro c hc
      simp only [ucModelOf, uc_pmin_length] at hc
      obtain ⟨i, hi, rfl⟩ := List.mem_map.mp hc
      have hi' : i < n := List.mem_range.mp hi
      have h1 := hq i hi'
      have h2 := hqM i hi'
      simp only [Constr.holds, AffExpr.val, termsVal, List.map_cons, List.map_nil,
        List.sum_cons, List.sum_nil, uc_feasible_point]
      nlinarith [mul_nonneg (show (0 : ℚ) ≤ 1 - t by linarith) (show (0 : ℚ) ≤
        (uc_pmax n us).getD i 0 - (uc_pmin n us).getD i 0 by linarith)]
    · intro c hc
      simp only [ucModelOf, uc_pmin_length] at hc
      obtain ⟨i, hi, rfl⟩ := List.mem_map.mp hc
      have hi' : i < n := List.mem_range.mp hi
      have h1 := hq i hi'
      have h2 := hqM i hi'
      simp only [Constr.holds, AffExpr.val, termsVal, List.map_cons, List.map_nil,
        List.sum_cons, List.sum_nil, uc_feasible_point]
      nlinarith [mul_nonneg ht0 (show (0 : ℚ) ≤
        (uc_pmax n us).getD i 0 - (uc_pmin n us).getD i 0 by linarith)]
    · have key : ∑ i ∈ Finset.range n, uc_feasible_point n us t (UCVar.y i) = d := by
        have hcong : ∀ i ∈ Finset.range n, uc_feasible_point n us t (UCVar.y i) =
            (uc_pmin n us).getD i 0 +
              t * ((uc_pmax n us).getD i 0 - (uc_pmin n us).getD i 0) :=
          fun i _ => rfl
        rw [Finset.sum_congr rfl hcong, Finset.sum_add_distrib, ← Finset.mul_sum,
          Finset.sum_sub_distrib, ← uc_pmin_sum, ← uc_pmax_sum, ht,
          div_mul_cancel₀ _ (ne_of_gt hD)]
        ring
      simp only [ucModelOf, uc_pmin_length, Constr.holds, AffExpr.val, termsVal,
        List.map_map]
      rw [← sum_map_range (fun i => uc_feasible_point n us t (UCVar.y i))] at key
      simp only [Function.comp_def, one_mul, List.map_nil, List.sum_nil, zero_add, add_zero]
      exact key

/-- The record `random_uc_data 1 1` produces from the all-zero draw
stream. -/
def uc_witness_record : UnitCommitmentData :=
  { demand := (uc_pmax 1 fun _ => (0 : ℚ)).sum * uniform_draw 0.5 0.25 0
    pmin := uc_pmin 1 fun _ => (0 : ℚ)
    pmax := uc_pmax 1 fun _ => (0 : ℚ)
    cfix := uc_cfix 1 fun _ => (0 : ℚ)
    cvar := uc_cvar 1 fun _ => (0 : ℚ) }

/-- Witness for C10: the record of one sample with one generator drawn from
the all-zero draw stream. -/
theorem uc_C10_witness :
    (∀ i, i < uc_witness_record.pmin.length →
      2 * uc_witness_record.pmin.getD i 0 ≤ uc_witness_record.pmax.getD i 0) ∧
    uc_witness_record.pmin.sum ≤ 0.5 * uc_witness_record.pmax.sum ∧
    0.5 * uc_witness_record.pmax.sum ≤ uc_witness_record.demand ∧
    uc_witness_record.demand ≤ uc_witness_record.pmax.sum ∧
    ∃ M : PyomoModel, build_uc_model_data uc_witness_record = some M ∧
      ∃ σ : UCVar → ℚ, (∀ i, σ (UCVar.x i) = 1) ∧ M.inner.FeasiblePoint σ :=
  uc_C10 1 1 (fun _ => (0 : ℚ)) (fun _ => ⟨le_refl 0, by norm_num⟩) uc_witness_record
    (by
      rw [random_uc_data]
      exact List.mem_map.mpr ⟨0, List.mem_range.mpr Nat.one_pos, rfl⟩)
